import Mathlib

/-!
Shallow embedding of `src/load_csv_to_db.py`, a CSV-to-PostgreSQL ETL script.
Files named `<shop_num>_<cash_num>.csv` are discovered in a data directory,
parsed (header check, per-row type conversion), loaded into the `sales` table
inside one transaction per file, and moved to a `processed` subdirectory on
success.  Load and move errors are caught per file; parse errors propagate
out of `process_files` and abort the run.

External effects are made explicit: the database is a list of rows, the file
system is the list of directory-entry names still in place plus the list of
names moved to the processed area, console output is a list of structured
events, and database/file-system faults are injected through an oracle.
-/

namespace HomeRetail

/-- ASCII decimal digit, embedding the character class of FILENAME_PATTERN
(the Python regex also accepts other Unicode digits; the claims only concern
ASCII names). -/
def isDigitChar (c : Char) : Bool := c.isDigit

/-- Whitespace stripped by Python str.strip / int() / Decimal() (ASCII part). -/
def isSpaceChar (c : Char) : Bool :=
  c == ' ' || c == '\t' || c == '\n' || c == '\r' || c == '\x0b' || c == '\x0c'

/-- Decimal value of a digit string, as computed by Python int() on it. -/
def digitsToNat (ds : List Char) : Nat :=
  ds.foldl (fun n c => 10 * n + (c.toNat - 48)) 0

/-- Python str.strip(): drop leading and trailing whitespace. -/
def pyStrip (s : String) : String :=
  ⟨((s.data.dropWhile isSpaceChar).reverse.dropWhile isSpaceChar).reverse⟩

/-- FILENAME_PATTERN matching: `^(\d+)_(\d+)\.csv$` under the greedy regex
semantics (the first digit run is maximal, then an underscore, then a second
maximal digit run, then exactly ".csv").  Returns the (shop_num, cash_num)
pair obtained by int() on the two captured groups, as in find_csv_files. -/
def matchFilename (s : String) : Option (Nat × Nat) :=
  let d1 := s.data.takeWhile isDigitChar
  match s.data.dropWhile isDigitChar with
  | [] => none
  | c :: r2 =>
    let d2 := r2.takeWhile isDigitChar
    let r3 := r2.dropWhile isDigitChar
    if c == '_' && (!d1.isEmpty && (!d2.isEmpty && r3 == ['.', 'c', 's', 'v'])) then
      some (digitsToNat d1, digitsToNat d2)
    else
      none

/-- Exact decimal number: `num / 10 ^ scale`, the shape produced by Python
Decimal on plain numeric strings (no binary floating point involved). -/
structure Dec where
  num : Int
  scale : Nat
deriving DecidableEq

/-- Python int(str): optional surrounding whitespace, optional sign, a
nonempty run of digits; anything else raises ValueError (modelled as none). -/
def parsePyInt (s : String) : Option Int :=
  let cs := (pyStrip s).data
  let sd : Int × List Char :=
    match cs with
    | '-' :: t => (-1, t)
    | '+' :: t => (1, t)
    | _ => (1, cs)
  if !sd.2.isEmpty && sd.2.all isDigitChar then
    some (sd.1 * (digitsToNat sd.2 : Int))
  else
    none

/-- Python Decimal(str) on the plain forms used by the data files: optional
whitespace and sign, digits with an optional fractional part; anything else
raises (modelled as none; exponents and Infinity/NaN spellings are outside
the inputs the claims touch). -/
def parsePyDecimal (s : String) : Option Dec :=
  let cs := (pyStrip s).data
  let sd : Int × List Char :=
    match cs with
    | '-' :: t => (-1, t)
    | '+' :: t => (1, t)
    | _ => (1, cs)
  let ip := sd.2.takeWhile (fun c => c != '.')
  let rest := sd.2.dropWhile (fun c => c != '.')
  if ip.all isDigitChar then
    match rest with
    | [] => if !ip.isEmpty then some ⟨sd.1 * (digitsToNat ip : Int), 0⟩ else none
    | '.' :: fp =>
      if fp.all isDigitChar && (!ip.isEmpty || !fp.isEmpty) then
        some ⟨sd.1 * (digitsToNat (ip ++ fp) : Int), fp.length⟩
      else
        none
    | _ => none
  else
    none

/-- One row of the public.sales table, exactly the 9-tuple built by
read_csv_file and inserted by insert_rows. -/
structure SalesRow where
  doc_id : String
  item : String
  category : String
  amount : Int
  price : Dec
  discount : Dec
  shop_num : Nat
  cash_num : Nat
  file_name : String
deriving DecidableEq

/-- The ValueError raised by read_csv_file, keeping the data it reports:
either the missing-columns message (naming the file) or the row-parse
message (naming the 1-based physical line number and the file). -/
inductive ParseError where
  | schema (fileName : String)
  | row (lineNum : Nat) (fileName : String)
deriving DecidableEq

/-- Content of a CSV file as seen through csv.DictReader: a header line and
the data rows as raw cell lists. -/
structure CsvFile where
  header : List String
  dataRows : List (List String)
deriving DecidableEq

/-- DictReader row lookup `row[fld]`: the cell under the last occurrence of
`fld` in the header (dict(zip(fieldnames, row)) lets a later duplicate win);
none when the data row is too short (DictReader fills the key with None and
the subsequent .strip()/int()/Decimal() raises). -/
def dictGet (header row : List String) (fld : String) : Option String :=
  match header.reverse.findIdx? (fun h => h == fld) with
  | none => none
  | some i => row.get? (header.length - 1 - i)

/-- Conversion of one data row inside the try block of read_csv_file:
strip the three text fields, int() the amount, Decimal() price and discount.
none when any step raises. -/
def convRow (header row : List String) : Option (String × String × String × Int × Dec × Dec) := do
  let doc ← dictGet header row ("doc_id")
  let itm ← dictGet header row ("item")
  let cat ← dictGet header row ("category")
  let amt ← dictGet header row ("amount")
  let prc ← dictGet header row ("price")
  let dsc ← dictGet header row ("discount")
  let a ← parsePyInt amt
  let p ← parsePyDecimal prc
  let d ← parsePyDecimal dsc
  some (pyStrip doc, pyStrip itm, pyStrip cat, a, p, d)

/-- The loop `for line_num, row in enumerate(reader, start=2)`: convert each
row in order, abort the whole file on the first failing row, reporting the
enumerate counter (2 for the first data row) and the file name. -/
def parseRows (name : String) (shop_num cash_num : Nat) (header : List String) :
    Nat → List (List String) → Except ParseError (List SalesRow)
  | _, [] => .ok []
  | lineNum, r :: rs =>
    match convRow header r with
    | none => .error (.row lineNum name)
    | some (doc, itm, cat, a, p, d) =>
      match parseRows name shop_num cash_num header (lineNum + 1) rs with
      | .error e => .error e
      | .ok rest =>
        .ok ({ doc_id := doc, item := itm, category := cat, amount := a,
               price := p, discount := d, shop_num := shop_num,
               cash_num := cash_num, file_name := name } :: rest)

/-- The required_fields set checked against reader.fieldnames. -/
def REQUIRED_FIELDS : List String :=
  [("doc_id"), ("item"), ("category"), ("amount"), ("price"), ("discount")]

/-- read_csv_file: check that every required field occurs in the header,
else raise the missing-columns ValueError; then convert the data rows,
stamping each produced row with shop_num, cash_num and the file name. -/
def read_csv_file (content : CsvFile) (name : String) (shop_num cash_num : Nat) :
    Except ParseError (List SalesRow) :=
  if REQUIRED_FIELDS.all (fun fld => content.header.contains fld) then
    parseRows name shop_num cash_num content.header 2 content.dataRows
  else
    .error (.schema name)

/-- Does the injected database fault (failure of the insert at absolute
statement index k, when the oracle is `some k`) hit a window of `len`
statements starting at index `idx`? -/
def failsIn : Option Nat → Nat → Nat → Bool
  | none, _, _ => false
  | some k, idx, len => Nat.ble idx k && Nat.blt k (idx + len)

/-- Sequential execution of the INSERT statements of one execute_batch page
on the open transaction: the tentative table state grows row by row; the
statement whose absolute index the fault oracle names raises. -/
def runStmts (f : Option Nat) : Nat → List SalesRow → List SalesRow → Except Unit (List SalesRow × Nat)
  | idx, db, [] => .ok (db, idx)
  | idx, db, r :: rs =>
    if f = some idx then .error () else runStmts f (idx + 1) (db ++ [r]) rs

/-- Splitting a list into chunks of size n+1, as execute_batch pages the
statement list (page_size = n+1); the fuel argument, instantiated with the
list length, keeps the recursion structural. -/
def chunksOfAux {α : Type} (n : Nat) : Nat → List α → List (List α)
  | _, [] => []
  | 0, _ :: _ => []
  | fuel + 1, x :: xs => ((x :: xs).take (n + 1)) :: chunksOfAux n fuel (xs.drop n)

/-- Splitting a list into chunks of size n+1. -/
def chunksOf {α : Type} (n : Nat) (l : List α) : List (List α) :=
  chunksOfAux n l.length l

/-- Execution of the successive execute_batch pages on the same cursor and
transaction; an error in any page propagates out. -/
def runChunks (f : Option Nat) : Nat → List SalesRow → List (List SalesRow) → Except Unit (List SalesRow × Nat)
  | idx, db, [] => .ok (db, idx)
  | idx, db, c :: cs =>
    match runStmts f idx db c with
    | .error e => .error e
    | .ok (db2, idx2) => runChunks f idx2 db2 cs

/-- insert_rows with an explicit page size n+1: execute_batch over the
chunked row list inside the caller's transaction.  The result is the
tentative (uncommitted) table state, or the propagated raise. -/
def insert_rowsP (pagePred : Nat) (f : Option Nat) (db rows : List SalesRow) :
    Except Unit (List SalesRow) :=
  match runChunks f 0 db (chunksOf pagePred rows) with
  | .error _ => .error ()
  | .ok (db2, _) => .ok db2

/-- insert_rows as in the source: execute_batch with page_size = 1000. -/
def insert_rows : Option Nat → List SalesRow → List SalesRow → Except Unit (List SalesRow) :=
  insert_rowsP 999

/-- The `with conn:` block around insert_rows: commit the tentative state on
normal exit, roll the whole transaction back (table unchanged) when the
block raises.  Second component: did the commit happen? -/
def load_transactionP (pagePred : Nat) (f : Option Nat) (db rows : List SalesRow) :
    List SalesRow × Bool :=
  match insert_rowsP pagePred f db rows with
  | .ok db2 => (db2, true)
  | .error _ => (db, false)

/-- One directory entry of the data directory: its name, whether it is a
regular file (entry.is_file()), and its content read as CSV. -/
structure Entry where
  name : String
  isFile : Bool
  content : CsvFile
deriving DecidableEq

/-- An accepted file as produced by find_csv_files: the entry with the
shop_num and cash_num extracted from its name. -/
abbrev AccFile := Entry × Nat × Nat

/-- find_csv_files: keep the regular files whose name matches
FILENAME_PATTERN, pairing each with int() of the two captured groups;
every other entry is skipped. -/
def find_csv_files (entries : List Entry) : List AccFile :=
  entries.filterMap (fun e =>
    if e.isFile then
      match matchFilename e.name with
      | some p => some (e, p.1, p.2)
      | none => none
    else none)

/-- Cause attached to the per-file error message printed by process_files:
the raise came from the database insert or from the archival move. -/
inductive Cause where
  | insertFailed
  | moveFailed
deriving DecidableEq

/-- Console output of the run, structured: each print statement of the
script becomes one event. -/
inductive Event where
  | skipName (name : String)
  | noFiles
  | foundCount (n : Nat)
  | processing (name : String) (shop cash : Nat)
  | rowCount (name : String) (n : Nat)
  | dryRunNote
  | loadError (name : String) (cause : Cause)
  | moved (name : String)
deriving DecidableEq

/-- The file name an event is about, when it names one. -/
def eventName : Event → Option String
  | .skipName n => some n
  | .noFiles => none
  | .foundCount _ => none
  | .processing n _ _ => some n
  | .rowCount n _ => some n
  | .dryRunNote => none
  | .loadError n _ => some n
  | .moved n => some n

/-- The informational notes printed by find_csv_files while skipping
entries whose name does not match the pattern. -/
def skip_events (entries : List Entry) : List Event :=
  entries.filterMap (fun e =>
    if e.isFile && (matchFilename e.name).isNone then some (.skipName e.name) else none)

/-- Fault injection for the external world: for a given file name, the
absolute index of the INSERT statement the database rejects (none = the
load succeeds), and whether the rename into processed/ raises. -/
structure Oracle where
  failAt : String → Option Nat
  moveFail : String → Bool

/-- Observable state of a run: committed table content, names still at
their original path in the data directory, names moved into processed/,
and the console events so far. -/
structure FState where
  db : List SalesRow
  inDataDir : List String
  processedDir : List String
  events : List Event
deriving DecidableEq

/-- The body of the per-file loop of process_files: read the file (a raise
here propagates, carrying the state at that point); in dry-run mode stop
after reporting; otherwise run insert_rows inside `with conn` and then the
move, catching any raise of either, leaving the file in place on a load
failure and keeping the committed rows on a move failure. -/
def processOne (o : Oracle) (dryRun : Bool) (st : FState) (g : AccFile) :
    Except (ParseError × FState) FState :=
  let st1 := { st with events := st.events ++ [Event.processing g.1.name g.2.1 g.2.2] }
  match read_csv_file g.1.content g.1.name g.2.1 g.2.2 with
  | .error e => .error (e, st1)
  | .ok rows =>
    let st2 := { st1 with events := st1.events ++ [Event.rowCount g.1.name rows.length] }
    if dryRun then
      .ok { st2 with events := st2.events ++ [Event.dryRunNote] }
    else
      match insert_rows (o.failAt g.1.name) st2.db rows with
      | .error _ =>
        .ok { st2 with events := st2.events ++ [Event.loadError g.1.name .insertFailed] }
      | .ok db2 =>
        if o.moveFail g.1.name then
          .ok { st2 with db := db2, events := st2.events ++ [Event.loadError g.1.name .moveFailed] }
        else
          .ok { st2 with
                db := db2
                inDataDir := st2.inDataDir.erase g.1.name
                processedDir := st2.processedDir ++ [g.1.name]
                events := st2.events ++ [Event.moved g.1.name] }

/-- The `for filepath, shop_num, cash_num in files:` loop: files strictly in
order, one at a time; an uncaught raise of processOne aborts the loop. -/
def processList (o : Oracle) (dryRun : Bool) : List AccFile → FState → Except (ParseError × FState) FState
  | [], st => .ok st
  | g :: gs, st =>
    match processOne o dryRun st g with
    | .error es => .error es
    | .ok st2 => processList o dryRun gs st2

/-- process_files: discover the files, return after a note when there are
none, otherwise report the count and run the per-file loop.  At the start
of the run the table holds db0, every entry is at its original path,
nothing is processed, and the skip notes have been printed. -/
def process_files (o : Oracle) (dryRun : Bool) (db0 : List SalesRow) (entries : List Entry) :
    Except (ParseError × FState) FState :=
  let files := find_csv_files entries
  if files.isEmpty then
    .ok { db := db0
          inDataDir := entries.map Entry.name
          processedDir := []
          events := skip_events entries ++ [Event.noFiles] }
  else
    processList o dryRun files
      { db := db0
        inDataDir := entries.map Entry.name
        processedDir := []
        events := skip_events entries ++ [Event.foundCount files.length] }

/-! Lemmas about statement execution and the per-file transaction. -/

/-- The fault window test is the expected arithmetic predicate. -/
theorem failsIn_iff (f : Option Nat) (idx len : Nat) :
    failsIn f idx len = true ↔ ∃ k, f = some k ∧ idx ≤ k ∧ k < idx + len := by
  cases f with
  | none => simp [failsIn]
  | some k =>
    simp only [failsIn, Bool.and_eq_true, Nat.ble_eq, Nat.blt_eq, Option.some.injEq]
    constructor
    · rintro ⟨h1, h2⟩
      exact ⟨k, rfl, h1, h2⟩
    · rintro ⟨k2, hk, h1, h2⟩
      subst hk
      exact ⟨h1, h2⟩

/-- Sequential statement execution, characterized: it raises exactly when
the fault index lies in the executed window, and otherwise appends the rows
and advances the index. -/
theorem runStmts_eq (f : Option Nat) (rows : List SalesRow) :
    ∀ (idx : Nat) (db : List SalesRow),
    runStmts f idx db rows =
      if failsIn f idx rows.length then .error () else .ok (db ++ rows, idx + rows.length) := by
  induction rows with
  | nil =>
    intro idx db
    have hc : ¬ failsIn f idx 0 = true := by
      intro hgot
      rcases (failsIn_iff f idx 0).mp hgot with ⟨k, _, h1, h2⟩
      omega
    simp only [runStmts, List.length_nil, List.append_nil, Nat.add_zero, if_neg hc]
  | cons r rs ih =>
    intro idx db
    by_cases hf : f = some idx
    · have hc : failsIn f idx (r :: rs).length = true := by
        rw [failsIn_iff]
        exact ⟨idx, hf, le_refl idx, by simp⟩
      simp only [runStmts, if_pos hf, if_pos hc]
    · have hiff : failsIn f idx (r :: rs).length = true ↔ failsIn f (idx + 1) rs.length = true := by
        rw [failsIn_iff, failsIn_iff]
        constructor
        · rintro ⟨k, hk, h1, h2⟩
          have hne : k ≠ idx := fun h => hf (h ▸ hk)
          refine ⟨k, hk, by omega, ?_⟩
          simp only [List.length_cons] at h2
          omega
        · rintro ⟨k, hk, h1, h2⟩
          exact ⟨k, hk, by omega, by simp only [List.length_cons]; omega⟩
      simp only [runStmts, if_neg hf, ih]
      by_cases hc : failsIn f (idx + 1) rs.length = true
      · rw [if_pos hc, if_pos (hiff.mpr hc)]
      · have hc2 : ¬ failsIn f idx (r :: rs).length = true := fun h => hc (hiff.mp h)
        rw [if_neg hc, if_neg hc2]
        simp only [List.append_assoc, List.singleton_append, List.length_cons,
          Except.ok.injEq, Prod.mk.injEq, true_and]
        omega

/-- Page-by-page execution on one cursor equals executing the concatenated
statement list. -/
theorem runChunks_eq (f : Option Nat) (cs : List (List SalesRow)) :
    ∀ (idx : Nat) (db : List SalesRow),
    runChunks f idx db cs = runStmts f idx db cs.flatten := by
  induction cs with
  | nil =>
    intro idx db
    simp [runChunks, runStmts, List.flatten]
  | cons c cs ih =>
    intro idx db
    rw [List.flatten_cons]
    simp only [runChunks]
    rw [runStmts_eq f c idx db]
    by_cases hc : failsIn f idx c.length = true
    · have hc2 : failsIn f idx (c ++ cs.flatten).length = true := by
        rcases (failsIn_iff f idx c.length).mp hc with ⟨k, hk, h1, h2⟩
        rw [failsIn_iff]
        refine ⟨k, hk, h1, ?_⟩
        simp only [List.length_append]
        omega
      rw [if_pos hc, runStmts_eq, if_pos hc2]
    · have hiff : failsIn f idx (c ++ cs.flatten).length = true ↔
          failsIn f (idx + c.length) cs.flatten.length = true := by
        rw [failsIn_iff, failsIn_iff]
        constructor
        · rintro ⟨k, hk, h1, h2⟩
          have hout : ¬ (idx ≤ k ∧ k < idx + c.length) := by
            intro hin
            exact hc ((failsIn_iff f idx c.length).mpr ⟨k, hk, hin.1, hin.2⟩)
          simp only [List.length_append] at h2
          exact ⟨k, hk, by omega, by omega⟩
        · rintro ⟨k, hk, h1, h2⟩
          exact ⟨k, hk, by omega, by simp only [List.length_append]; omega⟩
      rw [if_neg hc]
      show runChunks f (idx + c.length) (db ++ c) cs = _
      rw [ih, runStmts_eq, runStmts_eq]
      by_cases hc3 : failsIn f (idx + c.length) cs.flatten.length = true
      · rw [if_pos hc3, if_pos (hiff.mpr hc3)]
      · have hc4 : ¬ failsIn f idx (c ++ cs.flatten).length = true := fun h => hc3 (hiff.mp h)
        rw [if_neg hc3, if_neg hc4]
        simp only [List.append_assoc, List.length_append, Except.ok.injEq, Prod.mk.injEq,
          true_and]
        omega

/-- Concatenating the pages of chunksOfAux gives back the full list, as
long as the fuel covers the list length. -/
theorem chunksOfAux_flatten {α : Type} (n : Nat) :
    ∀ (fuel : Nat) (l : List α), l.length ≤ fuel → (chunksOfAux n fuel l).flatten = l := by
  intro fuel
  induction fuel with
  | zero =>
    intro l hl
    cases l with
    | nil => rfl
    | cons x xs =>
      simp at hl
  | succ fuel ih =>
    intro l hl
    cases l with
    | nil => rfl
    | cons x xs =>
      simp only [chunksOfAux, List.flatten_cons]
      rw [ih (xs.drop n) ?_]
      · rw [List.take_succ_cons, List.cons_append, List.take_append_drop]
      · simp only [List.length_drop, List.length_cons] at hl ⊢
        omega

/-- Concatenating the execute_batch pages gives back the full row list. -/
theorem chunksOf_flatten {α : Type} (n : Nat) (l : List α) : (chunksOf n l).flatten = l :=
  chunksOfAux_flatten n l.length l (le_refl l.length)

/-- insert_rows with any page size: raises exactly when the fault oracle
names one of the batch's statement indices, and otherwise the tentative
table state is the old content plus the whole batch. -/
theorem insert_rowsP_eq (pagePred : Nat) (f : Option Nat) (db rows : List SalesRow) :
    insert_rowsP pagePred f db rows =
      if failsIn f 0 rows.length then .error () else .ok (db ++ rows) := by
  unfold insert_rowsP
  rw [runChunks_eq, chunksOf_flatten, runStmts_eq]
  by_cases hc : failsIn f 0 rows.length = true
  · rw [if_pos hc, if_pos hc]
  · rw [if_neg hc, if_neg hc]

/-- insert_rows as called by process_files (page size 1000), characterized. -/
theorem insert_rows_eq (f : Option Nat) (db rows : List SalesRow) :
    insert_rows f db rows = if failsIn f 0 rows.length then .error () else .ok (db ++ rows) :=
  insert_rowsP_eq 999 f db rows

/-- C3: loading one file's batch is all-or-nothing inside the single
`with conn` transaction, for every page size n+1 of the internal
execute_batch chunking: if the database faults on any statement of the
batch (the last included: any index below the batch length), the rollback
leaves the table exactly as it was and nothing commits; otherwise the
commit persists the previous table content plus every record of the batch. -/
theorem load_transaction_all_or_nothing (pagePred : Nat) (f : Option Nat) (db rows : List SalesRow) :
    load_transactionP pagePred f db rows =
      if failsIn f 0 rows.length then (db, false) else (db ++ rows, true) := by
  unfold load_transactionP
  rw [insert_rowsP_eq]
  by_cases hc : failsIn f 0 rows.length = true
  · rw [if_pos hc, if_pos hc]
  · rw [if_neg hc, if_neg hc]

/-- A loop step that returns normally lets the loop continue with the
remaining files from the returned state. -/
theorem processList_cons_ok (o : Oracle) (d : Bool) (st st2 : FState) (g : AccFile)
    (gs : List AccFile) (h : processOne o d st g = .ok st2) :
    processList o d (g :: gs) st = processList o d gs st2 := by
  simp only [processList, h]

/-- Step behavior when the database faults during the file's batch: caught,
reported, table and directories untouched. -/
theorem processOne_loadfail (o : Oracle) (st : FState) (g : AccFile) (rows : List SalesRow)
    (hread : read_csv_file g.1.content g.1.name g.2.1 g.2.2 = .ok rows)
    (hfail : failsIn (o.failAt g.1.name) 0 rows.length = true) :
    processOne o false st g =
      .ok { st with events := st.events ++ [Event.processing g.1.name g.2.1 g.2.2,
                                            Event.rowCount g.1.name rows.length,
                                            Event.loadError g.1.name Cause.insertFailed] } := by
  simp only [processOne, hread, Bool.false_eq_true, if_false, insert_rows, insert_rowsP_eq,
    if_pos hfail, List.append_assoc, List.singleton_append, List.cons_append, List.nil_append]

/-- Step behavior when the load commits but the rename into processed/
raises: caught, reported, the committed rows stay, the file stays put. -/
theorem processOne_movefail (o : Oracle) (st : FState) (g : AccFile) (rows : List SalesRow)
    (hread : read_csv_file g.1.content g.1.name g.2.1 g.2.2 = .ok rows)
    (hok : failsIn (o.failAt g.1.name) 0 rows.length = false)
    (hmv : o.moveFail g.1.name = true) :
    processOne o false st g =
      .ok { st with db := st.db ++ rows,
                    events := st.events ++ [Event.processing g.1.name g.2.1 g.2.2,
                                            Event.rowCount g.1.name rows.length,
                                            Event.loadError g.1.name Cause.moveFailed] } := by
  have hok2 : ¬ failsIn (o.failAt g.1.name) 0 rows.length = true := by
    rw [hok]
    exact Bool.false_ne_true
  simp only [processOne, hread, Bool.false_eq_true, if_false, insert_rows, insert_rowsP_eq,
    if_neg hok2, hmv, if_true, List.append_assoc, List.singleton_append, List.cons_append,
    List.nil_append]

/-- Step behavior of a fully successful file: commit of the whole batch,
then the move into processed/. -/
theorem processOne_success (o : Oracle) (st : FState) (g : AccFile) (rows : List SalesRow)
    (hread : read_csv_file g.1.content g.1.name g.2.1 g.2.2 = .ok rows)
    (hok : failsIn (o.failAt g.1.name) 0 rows.length = false)
    (hmv : o.moveFail g.1.name = false) :
    processOne o false st g =
      .ok { st with db := st.db ++ rows,
                    inDataDir := st.inDataDir.erase g.1.name,
                    processedDir := st.processedDir ++ [g.1.name],
                    events := st.events ++ [Event.processing g.1.name g.2.1 g.2.2,
                                            Event.rowCount g.1.name rows.length,
                                            Event.moved g.1.name] } := by
  have hok2 : ¬ failsIn (o.failAt g.1.name) 0 rows.length = true := by
    rw [hok]
    exact Bool.false_ne_true
  simp only [processOne, hread, Bool.false_eq_true, if_false, insert_rows, insert_rowsP_eq,
    if_neg hok2, hmv, List.append_assoc, List.singleton_append, List.cons_append,
    List.nil_append]

/-- Step behavior of a dry-run file: report only, nothing else changes. -/
theorem processOne_dry (o : Oracle) (st : FState) (g : AccFile) (rows : List SalesRow)
    (hread : read_csv_file g.1.content g.1.name g.2.1 g.2.2 = .ok rows) :
    processOne o true st g =
      .ok { st with events := st.events ++ [Event.processing g.1.name g.2.1 g.2.2,
                                            Event.rowCount g.1.name rows.length,
                                            Event.dryRunNote] } := by
  simp only [processOne, hread, if_true, List.append_assoc, List.singleton_append,
    List.cons_append, List.nil_append]

/-- Step behavior of a file whose read raises: the raise propagates with
the state as printed so far. -/
theorem processOne_readfail (o : Oracle) (d : Bool) (st : FState) (g : AccFile) (e : ParseError)
    (hread : read_csv_file g.1.content g.1.name g.2.1 g.2.2 = .error e) :
    processOne o d st g =
      .error (e, { st with events := st.events ++ [Event.processing g.1.name g.2.1 g.2.2] }) := by
  simp only [processOne, hread]

/-- C2: a database failure while loading one file's batch is caught by
process_files: the loop step returns normally, the error report names the
file and the insert cause, the table and both directories are untouched
(the file stays at its original path), and the loop goes on with the
remaining files exactly as it would from the reported state. -/
theorem load_failure_isolated (o : Oracle) (st : FState) (g : AccFile) (rows : List SalesRow)
    (hread : read_csv_file g.1.content g.1.name g.2.1 g.2.2 = .ok rows)
    (hfail : failsIn (o.failAt g.1.name) 0 rows.length = true) :
    processOne o false st g =
      .ok { st with events := st.events ++ [Event.processing g.1.name g.2.1 g.2.2,
                                            Event.rowCount g.1.name rows.length,
                                            Event.loadError g.1.name Cause.insertFailed] } ∧
    ∀ gs : List AccFile,
      processList o false (g :: gs) st =
        processList o false gs
          { st with events := st.events ++ [Event.processing g.1.name g.2.1 g.2.2,
                                            Event.rowCount g.1.name rows.length,
                                            Event.loadError g.1.name Cause.insertFailed] } := by
  have h1 := processOne_loadfail o st g rows hread hfail
  exact ⟨h1, fun gs => processList_cons_ok o false st _ g gs h1⟩

/-- A fault window of zero statements is never hit. -/
theorem failsIn_len_zero (f : Option Nat) (idx : Nat) : failsIn f idx 0 = false := by
  cases hgot : failsIn f idx 0 with
  | false => rfl
  | true =>
    rcases (failsIn_iff f idx 0).mp hgot with ⟨k, _, h1, h2⟩
    omega

/-- C7: in a non-dry run the archival move is invoked only after the file's
transaction has committed: a file whose load faults is left unmoved (and
the loop returns normally); a move that raises after a successful commit is
caught, leaves the committed batch in the table, and does not abort the
loop; and whenever a step did move the file, the commit of the whole batch
had happened. -/
theorem archive_only_after_commit (o : Oracle) (st : FState) (g : AccFile)
    (rows : List SalesRow)
    (hread : read_csv_file g.1.content g.1.name g.2.1 g.2.2 = .ok rows) :
    (failsIn (o.failAt g.1.name) 0 rows.length = true →
      processOne o false st g =
        .ok { st with events := st.events ++ [Event.processing g.1.name g.2.1 g.2.2,
                                              Event.rowCount g.1.name rows.length,
                                              Event.loadError g.1.name Cause.insertFailed] }) ∧
    (failsIn (o.failAt g.1.name) 0 rows.length = false → o.moveFail g.1.name = true →
      processOne o false st g =
        .ok { st with db := st.db ++ rows,
                      events := st.events ++ [Event.processing g.1.name g.2.1 g.2.2,
                                              Event.rowCount g.1.name rows.length,
                                              Event.loadError g.1.name Cause.moveFailed] }) ∧
    (failsIn (o.failAt g.1.name) 0 rows.length = false → o.moveFail g.1.name = false →
      processOne o false st g =
        .ok { st with db := st.db ++ rows,
                      inDataDir := st.inDataDir.erase g.1.name,
                      processedDir := st.processedDir ++ [g.1.name],
                      events := st.events ++ [Event.processing g.1.name g.2.1 g.2.2,
                                              Event.rowCount g.1.name rows.length,
                                              Event.moved g.1.name] }) ∧
    (∀ st2 : FState, processOne o false st g = .ok st2 → st2.processedDir ≠ st.processedDir →
      failsIn (o.failAt g.1.name) 0 rows.length = false ∧ st2.db = st.db ++ rows ∧
      st2.processedDir = st.processedDir ++ [g.1.name]) ∧
    (∀ (st2 : FState) (gs : List AccFile), processOne o false st g = .ok st2 →
      processList o false (g :: gs) st = processList o false gs st2) := by
  refine ⟨fun hf => processOne_loadfail o st g rows hread hf,
          fun hok hmv => processOne_movefail o st g rows hread hok hmv,
          fun hok hmv => processOne_success o st g rows hread hok hmv,
          ?_, fun st2 gs h => processList_cons_ok o false st st2 g gs h⟩
  intro st2 h hne
  cases hfail : failsIn (o.failAt g.1.name) 0 rows.length with
  | true =>
    rw [processOne_loadfail o st g rows hread hfail] at h
    injection h with h2
    subst h2
    exact absurd rfl hne
  | false =>
    cases hmv : o.moveFail g.1.name with
    | true =>
      rw [processOne_movefail o st g rows hread hfail hmv] at h
      injection h with h2
      subst h2
      exact absurd rfl hne
    | false =>
      rw [processOne_success o st g rows hread hfail hmv] at h
      injection h with h2
      subst h2
      exact ⟨rfl, rfl, rfl⟩

/-- C10: a file whose header has every required column but which has no
data rows parses to an empty batch, loads as a (vacuous) successful commit
whatever the database fault oracle says, and is moved into processed/ like
any successfully loaded file; the table is unchanged. -/
theorem empty_file_commits_and_archives (o : Oracle) (st : FState) (g : AccFile)
    (hhdr : REQUIRED_FIELDS.all (fun fld => g.1.content.header.contains fld) = true)
    (hrows : g.1.content.dataRows = [])
    (hmv : o.moveFail g.1.name = false) :
    read_csv_file g.1.content g.1.name g.2.1 g.2.2 = .ok [] ∧
    processOne o false st g =
      .ok { st with inDataDir := st.inDataDir.erase g.1.name,
                    processedDir := st.processedDir ++ [g.1.name],
                    events := st.events ++ [Event.processing g.1.name g.2.1 g.2.2,
                                            Event.rowCount g.1.name 0,
                                            Event.moved g.1.name] } := by
  have hread : read_csv_file g.1.content g.1.name g.2.1 g.2.2 = .ok [] := by
    simp only [read_csv_file, hhdr, if_true, hrows, parseRows]
  have hok : failsIn (o.failAt g.1.name) 0 (List.length ([] : List SalesRow)) = false :=
    failsIn_len_zero (o.failAt g.1.name) 0
  have h := processOne_success o st g [] hread hok hmv
  refine ⟨hread, ?_⟩
  simpa using h

/-- C5: when the header misses any required column, read_csv_file fails the
whole file with the schema ValueError naming the file, and no batch (not
even a partial one) is produced. -/
theorem missing_column_fails_whole_file (content : CsvFile) (name : String) (s c : Nat)
    (hmiss : REQUIRED_FIELDS.all (fun fld => content.header.contains fld) = false) :
    read_csv_file content name s c = .error (.schema name) ∧
    ∀ rows : List SalesRow, read_csv_file content name s c ≠ .ok rows := by
  have h1 : read_csv_file content name s c = .error (.schema name) := by
    simp only [read_csv_file, hmiss, Bool.false_eq_true, if_false]
  exact ⟨h1, fun rows hok => by rw [h1] at hok; cases hok⟩

/-- Row conversion loop: the first failing data row aborts the file with
its enumerate counter (the start value plus the number of rows before it). -/
theorem parseRows_first_bad (name : String) (s c : Nat) (header : List String)
    (good : List (List String)) (bad : List String) (rest : List (List String))
    (hgood : ∀ r ∈ good, convRow header r ≠ none)
    (hbad : convRow header bad = none) :
    ∀ ln : Nat, parseRows name s c header ln (good ++ bad :: rest) =
      .error (.row (ln + good.length) name) := by
  induction good with
  | nil =>
    intro ln
    simp [parseRows, hbad]
  | cons r rs ih =>
    intro ln
    have hr : convRow header r ≠ none := hgood r (List.mem_cons_self r rs)
    cases hcv : convRow header r with
    | none => exact absurd hcv hr
    | some v =>
      obtain ⟨d1, d2, d3, d4, d5, d6⟩ := v
      have hrec := ih (fun x hx => hgood x (List.mem_cons_of_mem r hx)) (ln + 1)
      simp only [List.cons_append, parseRows, hcv, List.append_eq]
      rw [hrec]
      simp only [List.length_cons, Except.error.injEq, ParseError.row.injEq, and_true]
      omega

/-- C6 (amended): a data row whose cell conversion fails aborts parsing of
the entire file — no batch is emitted — and the reported ValueError names
the file and the failing row's physical line number in the file, which is
its 1-based data-row index plus one (the header is line 1, the first data
row line 2). -/
theorem row_failure_aborts_file_with_line (content : CsvFile) (name : String) (s c : Nat)
    (good : List (List String)) (bad : List String) (rest : List (List String))
    (hhdr : REQUIRED_FIELDS.all (fun fld => content.header.contains fld) = true)
    (hsplit : content.dataRows = good ++ bad :: rest)
    (hgood : ∀ r ∈ good, convRow content.header r ≠ none)
    (hbad : convRow content.header bad = none) :
    read_csv_file content name s c = .error (.row (good.length + 2) name) ∧
    ∀ rows : List SalesRow, read_csv_file content name s c ≠ .ok rows := by
  have h1 : read_csv_file content name s c = .error (.row (good.length + 2) name) := by
    rw [read_csv_file, if_pos hhdr, hsplit, parseRows_first_bad name s c content.header
      good bad rest hgood hbad 2, Nat.add_comm 2 good.length]
  exact ⟨h1, fun rows hok => by rw [h1] at hok; cases hok⟩

/-- A file whose single data row has a non-numeric amount cell. -/
def c6File : CsvFile :=
  { header := [("doc_id"), ("item"), ("category"), ("amount"), ("price"), ("discount")]
    dataRows := [[("D1"), ("Towel"), ("textile"), ("x"), ("1.00"), ("0.00")]] }

/-- C6 as frozen is false on the code: for the first data row (data-row
index 1 under the claim's indexing) the raised error reports line 2, the
enumerate counter that starts at 2, not the data-row index 1. -/
theorem row_error_line_counterexample :
    read_csv_file c6File ("1_1.csv") 1 1 = .error (.row 2 ("1_1.csv")) ∧
    ParseError.row 2 ("1_1.csv") ≠ ParseError.row 1 ("1_1.csv") := by
  constructor
  · rfl
  · decide

/-- Every record built by the row loop carries the shop_num, cash_num and
file name it was called with, never anything from the cell contents. -/
theorem parseRows_stamped (name : String) (s c : Nat) (header : List String) :
    ∀ (dataRows : List (List String)) (ln : Nat) (rows : List SalesRow),
      parseRows name s c header ln dataRows = .ok rows →
      ∀ r ∈ rows, r.shop_num = s ∧ r.cash_num = c ∧ r.file_name = name := by
  intro dataRows
  induction dataRows with
  | nil =>
    intro ln rows h r hr
    simp only [parseRows, Except.ok.injEq] at h
    subst h
    cases hr
  | cons x xs ih =>
    intro ln rows h r hr
    cases hcv : convRow header x with
    | none =>
      simp only [parseRows, hcv] at h
      cases h
    | some v =>
      obtain ⟨d1, d2, d3, d4, d5, d6⟩ := v
      cases hrec : parseRows name s c header (ln + 1) xs with
      | error e =>
        simp only [parseRows, hcv, hrec] at h
        cases h
      | ok rest =>
        simp only [parseRows, hcv, hrec, Except.ok.injEq] at h
        subst h
        rcases List.mem_cons.mp hr with heq | hmem
        · subst heq
          exact ⟨rfl, rfl, rfl⟩
        · exact ih (ln + 1) rest hrec r hmem

/-- read_csv_file stamps every produced record with its own arguments. -/
theorem read_csv_file_stamped (content : CsvFile) (name : String) (s c : Nat)
    (rows : List SalesRow) (h : read_csv_file content name s c = .ok rows) :
    ∀ r ∈ rows, r.shop_num = s ∧ r.cash_num = c ∧ r.file_name = name := by
  rw [read_csv_file] at h
  by_cases hh : REQUIRED_FIELDS.all (fun fld => content.header.contains fld) = true
  · rw [if_pos hh] at h
    exact parseRows_stamped name s c content.header content.dataRows 2 rows h
  · rw [if_neg hh] at h
    cases h

/-- The batch a file contributes in a run without parse failures: its
parsed records ([] in the unreachable error case). -/
def parsedOf (g : AccFile) : List SalesRow :=
  match read_csv_file g.1.content g.1.name g.2.1 g.2.2 with
  | .ok rows => rows
  | .error _ => []

/-- parsedOf records are stamped with their file's name-derived values. -/
theorem parsedOf_stamped (g : AccFile) :
    ∀ r ∈ parsedOf g, r.shop_num = g.2.1 ∧ r.cash_num = g.2.2 ∧ r.file_name = g.1.name := by
  intro r hr
  rw [parsedOf] at hr
  cases hread : read_csv_file g.1.content g.1.name g.2.1 g.2.2 with
  | error e =>
    rw [hread] at hr
    cases hr
  | ok rows =>
    rw [hread] at hr
    exact read_csv_file_stamped g.1.content g.1.name g.2.1 g.2.2 rows hread r hr

/-- A loop step that raises aborts the loop with that raise. -/
theorem processList_cons_err (o : Oracle) (d : Bool) (st : FState) (g : AccFile)
    (gs : List AccFile) (es : ParseError × FState)
    (h : processOne o d st g = .error es) :
    processList o d (g :: gs) st = .error es := by
  simp only [processList, h]

/-- In a run whose database oracle never faults, a normally terminating
loop appends exactly the parsed batch of every file, in order, to the
table — whatever the move oracle did. -/
theorem processList_clean_db (o : Oracle) (fs : List AccFile)
    (hcl : ∀ g ∈ fs, o.failAt g.1.name = none) :
    ∀ (st stf : FState), processList o false fs st = .ok stf →
      stf.db = st.db ++ (fs.map parsedOf).flatten := by
  induction fs with
  | nil =>
    intro st stf h
    simp only [processList, Except.ok.injEq] at h
    subst h
    simp
  | cons g gs ih =>
    intro st stf h
    have hfa : o.failAt g.1.name = none := hcl g (List.mem_cons_self g gs)
    have hcl2 : ∀ x ∈ gs, o.failAt x.1.name = none :=
      fun x hx => hcl x (List.mem_cons_of_mem g hx)
    cases hread : read_csv_file g.1.content g.1.name g.2.1 g.2.2 with
    | error e =>
      rw [processList_cons_err o false st g gs _ (processOne_readfail o false st g e hread)] at h
      cases h
    | ok rows =>
      have hok : failsIn (o.failAt g.1.name) 0 rows.length = false := by
        rw [hfa]
        rfl
      have hpg : parsedOf g = rows := by
        rw [parsedOf, hread]
      cases hmv : o.moveFail g.1.name with
      | true =>
        have hstep := processOne_movefail o st g rows hread hok hmv
        rw [processList_cons_ok o false st _ g gs hstep] at h
        have hdb := ih hcl2 _ stf h
        rw [hdb]
        simp [hpg, List.append_assoc]
      | false =>
        have hstep := processOne_success o st g rows hread hok hmv
        rw [processList_cons_ok o false st _ g gs hstep] at h
        have hdb := ih hcl2 _ stf h
        rw [hdb]
        simp [hpg, List.append_assoc]

/-- The names of the accepted files form a sublist of the names of the
directory entries. -/
theorem find_csv_files_sublist (entries : List Entry) :
    ((find_csv_files entries).map (fun h => h.1.name)).Sublist (entries.map Entry.name) := by
  induction entries with
  | nil => simp [find_csv_files]
  | cons e es ih =>
    simp only [find_csv_files, List.filterMap_cons, List.map_cons]
    by_cases he : e.isFile = true
    · cases hm : matchFilename e.name with
      | none =>
        simp only [he, if_true, hm]
        exact ih.cons e.name
      | some p =>
        simp only [he, if_true, hm, List.map_cons]
        exact ih.cons₂ e.name
    · have he2 : e.isFile = false := by
        revert he
        cases e.isFile <;> simp
      simp only [he2, Bool.false_eq_true, if_false]
      exact ih.cons e.name

/-- Filtering the concatenated clean-run batches by one accepted file's
name yields exactly that file's batch, provided accepted names are unique. -/
theorem flatten_filter_unique (g : AccFile) (fs : List AccFile)
    (hnd : (fs.map (fun h => h.1.name)).Nodup) (hg : g ∈ fs) :
    ((fs.map parsedOf).flatten).filter (fun r => r.file_name == g.1.name) = parsedOf g := by
  induction fs with
  | nil => cases hg
  | cons h hs ih =>
    simp only [List.map_cons, List.flatten_cons, List.filter_append]
    rw [List.map_cons, List.nodup_cons] at hnd
    rcases List.mem_cons.mp hg with heq | hgs
    · subst heq
      have h1 : (parsedOf g).filter (fun r => r.file_name == g.1.name) = parsedOf g := by
        rw [List.filter_eq_self]
        intro r hr
        simp [(parsedOf_stamped g r hr).2.2]
      have h2 : ((hs.map parsedOf).flatten).filter (fun r => r.file_name == g.1.name) = [] := by
        rw [List.filter_eq_nil_iff]
        intro r hr
        rcases List.mem_flatten.mp hr with ⟨l, hl, hrl⟩
        rcases List.mem_map.mp hl with ⟨h2, hh2, rfl⟩
        have hname := (parsedOf_stamped h2 r hrl).2.2
        have hne : h2.1.name ≠ g.1.name := by
          intro hcontr
          exact hnd.1 (hcontr ▸ List.mem_map.mpr ⟨h2, hh2, rfl⟩)
        simp [hname, hne]
      rw [h1, h2, List.append_nil]
    · have hne : h.1.name ≠ g.1.name := by
        intro hcontr
        exact hnd.1 (hcontr ▸ List.mem_map.mpr ⟨g, hgs, rfl⟩)
      have h1 : (parsedOf h).filter (fun r => r.file_name == g.1.name) = [] := by
        rw [List.filter_eq_nil_iff]
        intro r hr
        have hname := (parsedOf_stamped h r hr).2.2
        simp [hname, hne]
      rw [h1, List.nil_append]
      exact ih hnd.2 hgs

/-- C9: records carry name-derived identity: every record parsed from an
accepted file has shop_num, cash_num and file_name equal to the values
extracted from that file's name, independent of the file's cells; and in a
run without database faults that terminates normally, the table rows
bearing that file's name are exactly its parsed batch. -/
theorem records_stamped_from_filename (o : Oracle) (db0 : List SalesRow)
    (entries : List Entry) (stf : FState) (g : AccFile) (rows : List SalesRow)
    (hN : (entries.map Entry.name).Nodup)
    (hcl : ∀ h ∈ find_csv_files entries, o.failAt h.1.name = none)
    (hrun : process_files o false db0 entries = .ok stf)
    (hg : g ∈ find_csv_files entries)
    (hdb0 : ∀ r ∈ db0, r.file_name ≠ g.1.name)
    (hread : read_csv_file g.1.content g.1.name g.2.1 g.2.2 = .ok rows) :
    (∀ r ∈ rows, r.shop_num = g.2.1 ∧ r.cash_num = g.2.2 ∧ r.file_name = g.1.name) ∧
    stf.db.filter (fun r => r.file_name == g.1.name) = rows := by
  refine ⟨read_csv_file_stamped g.1.content g.1.name g.2.1 g.2.2 rows hread, ?_⟩
  have hfsne : (find_csv_files entries).isEmpty = false := by
    cases hfind : find_csv_files entries with
    | nil =>
      rw [hfind] at hg
      cases hg
    | cons a as => rfl
  rw [process_files] at hrun
  simp only [hfsne, Bool.false_eq_true, if_false] at hrun
  have hdb := processList_clean_db o (find_csv_files entries) hcl _ stf hrun
  have hnd : ((find_csv_files entries).map (fun h => h.1.name)).Nodup :=
    hN.sublist (find_csv_files_sublist entries)
  have hpg : parsedOf g = rows := by
    rw [parsedOf, hread]
  rw [hdb]
  rw [show ({ db := db0
              inDataDir := entries.map Entry.name
              processedDir := []
              events := skip_events entries ++
                [Event.foundCount (find_csv_files entries).length] } : FState).db = db0 from rfl]
  rw [List.filter_append, flatten_filter_unique g (find_csv_files entries) hnd hg, hpg]
  have hl : db0.filter (fun r => r.file_name == g.1.name) = [] := by
    rw [List.filter_eq_nil_iff]
    intro r hr
    simp [hdb0 r hr]
  rw [hl, List.nil_append]

/-- The run state when process_files returns or raises: Python execution
leaves the already performed effects in place in both cases. -/
def endState : Except (ParseError × FState) FState → FState
  | .ok st => st
  | .error (_, st) => st

/-- One loop step only touches its own file: new table rows bear its name,
the only name it can move is its own, it erases no other name from the
data directory, and every new console event is about it (or about no file). -/
theorem processOne_frame (o : Oracle) (d : Bool) (st : FState) (g : AccFile) :
    (∀ r ∈ (endState (processOne o d st g)).db, r ∈ st.db ∨ r.file_name = g.1.name) ∧
    (∀ x ∈ (endState (processOne o d st g)).processedDir,
        x ∈ st.processedDir ∨ x = g.1.name) ∧
    (∀ x, x ∈ st.inDataDir → x ≠ g.1.name → x ∈ (endState (processOne o d st g)).inDataDir) ∧
    (∀ ev ∈ (endState (processOne o d st g)).events,
        ev ∈ st.events ∨ eventName ev = some g.1.name ∨ eventName ev = none) := by
  cases hread : read_csv_file g.1.content g.1.name g.2.1 g.2.2 with
  | error e =>
    rw [processOne_readfail o d st g e hread]
    refine ⟨fun r hr => Or.inl hr, fun x hx => Or.inl hx, fun x hx _ => hx, fun ev hev => ?_⟩
    rcases List.mem_append.mp hev with h | h
    · exact Or.inl h
    · rw [List.mem_singleton.mp h]
      exact Or.inr (Or.inl rfl)
  | ok rows =>
    have hstamp := read_csv_file_stamped g.1.content g.1.name g.2.1 g.2.2 rows hread
    cases d with
    | true =>
      rw [processOne_dry o st g rows hread]
      refine ⟨fun r hr => Or.inl hr, fun x hx => Or.inl hx, fun x hx _ => hx, fun ev hev => ?_⟩
      rcases List.mem_append.mp hev with h | h
      · exact Or.inl h
      · simp only [List.mem_cons, List.not_mem_nil, or_false] at h
        rcases h with h | h | h
        · rw [h]; exact Or.inr (Or.inl rfl)
        · rw [h]; exact Or.inr (Or.inl rfl)
        · rw [h]; exact Or.inr (Or.inr rfl)
    | false =>
      cases hf : failsIn (o.failAt g.1.name) 0 rows.length with
      | true =>
        rw [processOne_loadfail o st g rows hread hf]
        refine ⟨fun r hr => Or.inl hr, fun x hx => Or.inl hx, fun x hx _ => hx, fun ev hev => ?_⟩
        rcases List.mem_append.mp hev with h | h
        · exact Or.inl h
        · simp only [List.mem_cons, List.not_mem_nil, or_false] at h
          rcases h with h | h | h
          · rw [h]; exact Or.inr (Or.inl rfl)
          · rw [h]; exact Or.inr (Or.inl rfl)
          · rw [h]; exact Or.inr (Or.inl rfl)
      | false =>
        cases hmv : o.moveFail g.1.name with
        | true =>
          rw [processOne_movefail o st g rows hread hf hmv]
          refine ⟨fun r hr => ?_, fun x hx => Or.inl hx, fun x hx _ => hx, fun ev hev => ?_⟩
          · rcases List.mem_append.mp hr with h | h
            · exact Or.inl h
            · exact Or.inr (hstamp r h).2.2
          · rcases List.mem_append.mp hev with h | h
            · exact Or.inl h
            · simp only [List.mem_cons, List.not_mem_nil, or_false] at h
              rcases h with h | h | h
              · rw [h]; exact Or.inr (Or.inl rfl)
              · rw [h]; exact Or.inr (Or.inl rfl)
              · rw [h]; exact Or.inr (Or.inl rfl)
        | false =>
          rw [processOne_success o st g rows hread hf hmv]
          refine ⟨fun r hr => ?_, fun x hx => ?_, fun x hx hne => ?_, fun ev hev => ?_⟩
          · rcases List.mem_append.mp hr with h | h
            · exact Or.inl h
            · exact Or.inr (hstamp r h).2.2
          · rcases List.mem_append.mp hx with h | h
            · exact Or.inl h
            · exact Or.inr (List.mem_singleton.mp h)
          · exact (List.mem_erase_of_ne hne).mpr hx
          · rcases List.mem_append.mp hev with h | h
            · exact Or.inl h
            · simp only [List.mem_cons, List.not_mem_nil, or_false] at h
              rcases h with h | h | h
              · rw [h]; exact Or.inr (Or.inl rfl)
              · rw [h]; exact Or.inr (Or.inl rfl)
              · rw [h]; exact Or.inr (Or.inl rfl)

/-- The whole loop only touches the files it was handed. -/
theorem processList_frame (o : Oracle) (d : Bool) (fs : List AccFile) :
    ∀ st : FState,
    (∀ r ∈ (endState (processList o d fs st)).db,
        r ∈ st.db ∨ ∃ g ∈ fs, r.file_name = g.1.name) ∧
    (∀ x ∈ (endState (processList o d fs st)).processedDir,
        x ∈ st.processedDir ∨ ∃ g ∈ fs, x = g.1.name) ∧
    (∀ x, x ∈ st.inDataDir → (∀ g ∈ fs, x ≠ g.1.name) →
        x ∈ (endState (processList o d fs st)).inDataDir) ∧
    (∀ ev ∈ (endState (processList o d fs st)).events,
        ev ∈ st.events ∨ eventName ev = none ∨ ∃ g ∈ fs, eventName ev = some g.1.name) := by
  induction fs with
  | nil =>
    intro st
    exact ⟨fun r hr => Or.inl hr, fun x hx => Or.inl hx, fun x hx _ => hx,
           fun ev hev => Or.inl hev⟩
  | cons g gs ih =>
    intro st
    cases hstep : processOne o d st g with
    | error es =>
      rw [processList_cons_err o d st g gs es hstep]
      have hf := processOne_frame o d st g
      rw [hstep] at hf
      obtain ⟨h1, h2, h3, h4⟩ := hf
      refine ⟨fun r hr => ?_, fun x hx => ?_, fun x hx hne => ?_, fun ev hev => ?_⟩
      · exact (h1 r hr).imp id (fun h => ⟨g, List.mem_cons_self g gs, h⟩)
      · exact (h2 x hx).imp id (fun h => ⟨g, List.mem_cons_self g gs, h⟩)
      · exact h3 x hx (hne g (List.mem_cons_self g gs))
      · rcases h4 ev hev with h | h | h
        · exact Or.inl h
        · exact Or.inr (Or.inr ⟨g, List.mem_cons_self g gs, h⟩)
        · exact Or.inr (Or.inl h)
    | ok st2 =>
      rw [processList_cons_ok o d st st2 g gs hstep]
      have hf := processOne_frame o d st g
      rw [hstep] at hf
      obtain ⟨h1, h2, h3, h4⟩ := hf
      obtain ⟨k1, k2, k3, k4⟩ := ih st2
      refine ⟨fun r hr => ?_, fun x hx => ?_, fun x hx hne => ?_, fun ev hev => ?_⟩
      · rcases k1 r hr with h | ⟨g2, hg2, hn⟩
        · rcases h1 r h with h2' | h2'
          · exact Or.inl h2'
          · exact Or.inr ⟨g, List.mem_cons_self g gs, h2'⟩
        · exact Or.inr ⟨g2, List.mem_cons_of_mem g hg2, hn⟩
      · rcases k2 x hx with h | ⟨g2, hg2, hn⟩
        · rcases h2 x h with h2' | h2'
          · exact Or.inl h2'
          · exact Or.inr ⟨g, List.mem_cons_self g gs, h2'⟩
        · exact Or.inr ⟨g2, List.mem_cons_of_mem g hg2, hn⟩
      · exact k3 x (h3 x hx (hne g (List.mem_cons_self g gs)))
          (fun g2 hg2 => hne g2 (List.mem_cons_of_mem g hg2))
      · rcases k4 ev hev with h | h | ⟨g2, hg2, hn⟩
        · rcases h4 ev h with h2' | h2' | h2'
          · exact Or.inl h2'
          · exact Or.inr (Or.inr ⟨g, List.mem_cons_self g gs, h2'⟩)
          · exact Or.inr (Or.inl h2')
        · exact Or.inr (Or.inl h)
        · exact Or.inr (Or.inr ⟨g2, List.mem_cons_of_mem g hg2, hn⟩)

/-- A list with isEmpty false is not nil. -/
theorem ne_nil_of_isEmpty_false {α : Type} (l : List α) (h : l.isEmpty = false) : l ≠ [] := by
  cases l with
  | nil => cases h
  | cons a l => exact fun hcontr => List.noConfusion hcontr

/-- A nonempty list has isEmpty false. -/
theorem isEmpty_false_of_ne_nil {α : Type} (l : List α) (h : l ≠ []) : l.isEmpty = false := by
  cases l with
  | nil => exact absurd rfl h
  | cons a l => rfl

/-- takeWhile and dropWhile on a list made of a satisfying prefix, a
failing element and a tail. -/
theorem takeWhile_all_append (p : Char → Bool) (l1 : List Char) (x : Char) (l2 : List Char)
    (h1 : ∀ ch ∈ l1, p ch = true) (hx : p x = false) :
    (l1 ++ x :: l2).takeWhile p = l1 ∧ (l1 ++ x :: l2).dropWhile p = x :: l2 := by
  induction l1 with
  | nil =>
    simp [List.takeWhile_cons, List.dropWhile_cons, hx]
  | cons a l1 ih =>
    have ha : p a = true := h1 a (List.mem_cons_self a l1)
    have ihh := ih (fun ch hch => h1 ch (List.mem_cons_of_mem a hch))
    simp [List.takeWhile_cons, List.dropWhile_cons, ha, ihh.1, ihh.2]

/-- Modelled from the spec: a file name matches `^\d+_\d+\.csv$` when it is
a nonempty digit run, an underscore, a nonempty digit run and the literal
".csv" suffix. -/
def matchesPattern (s : String) : Prop :=
  ∃ d1 d2 : List Char, d1 ≠ [] ∧ d2 ≠ [] ∧ (∀ ch ∈ d1, isDigitChar ch = true) ∧
    (∀ ch ∈ d2, isDigitChar ch = true) ∧
    s.data = d1 ++ '_' :: (d2 ++ ['.', 'c', 's', 'v'])

/-- When matchFilename accepts, the name decomposes under the regex and the
captured pair is int() of the two digit groups. -/
theorem matchFilename_eq_some (s : String) (a b : Nat) (h : matchFilename s = some (a, b)) :
    ∃ d1 d2 : List Char, d1 ≠ [] ∧ d2 ≠ [] ∧ (∀ ch ∈ d1, isDigitChar ch = true) ∧
      (∀ ch ∈ d2, isDigitChar ch = true) ∧
      s.data = d1 ++ '_' :: (d2 ++ ['.', 'c', 's', 'v']) ∧
      a = digitsToNat d1 ∧ b = digitsToNat d2 := by
  simp only [matchFilename] at h
  cases hdw : s.data.dropWhile isDigitChar with
  | nil =>
    rw [hdw] at h
    simp at h
  | cons c r2 =>
    rw [hdw] at h
    simp only [] at h
    by_cases hcond : (c == '_' &&
        (!(s.data.takeWhile isDigitChar).isEmpty &&
          (!(r2.takeWhile isDigitChar).isEmpty &&
            (r2.dropWhile isDigitChar == ['.', 'c', 's', 'v'])))) = true
    · rw [if_pos hcond] at h
      simp only [Bool.and_eq_true, beq_iff_eq, Bool.not_eq_true'] at hcond
      obtain ⟨hc, h1, h2, h3⟩ := hcond
      simp only [Option.some.injEq, Prod.mk.injEq] at h
      refine ⟨s.data.takeWhile isDigitChar, r2.takeWhile isDigitChar,
        ne_nil_of_isEmpty_false _ h1, ne_nil_of_isEmpty_false _ h2,
        fun ch hch => List.mem_takeWhile_imp hch,
        fun ch hch => List.mem_takeWhile_imp hch, ?_, h.1.symm, h.2.symm⟩
      subst hc
      calc s.data = s.data.takeWhile isDigitChar ++ s.data.dropWhile isDigitChar :=
            (List.takeWhile_append_dropWhile isDigitChar s.data).symm
        _ = s.data.takeWhile isDigitChar ++ '_' :: r2 := by rw [hdw]
        _ = s.data.takeWhile isDigitChar ++ '_' ::
              (r2.takeWhile isDigitChar ++ ['.', 'c', 's', 'v']) := by
            rw [← h3, List.takeWhile_append_dropWhile]
    · rw [if_neg hcond] at h
      cases h

/-- When the name decomposes under the regex, matchFilename accepts it and
captures int() of the two digit groups. -/
theorem matchFilename_of_decomp (s : String) (d1 d2 : List Char)
    (h1 : d1 ≠ []) (h2 : d2 ≠ []) (hd1 : ∀ ch ∈ d1, isDigitChar ch = true)
    (hd2 : ∀ ch ∈ d2, isDigitChar ch = true)
    (hs : s.data = d1 ++ '_' :: (d2 ++ ['.', 'c', 's', 'v'])) :
    matchFilename s = some (digitsToNat d1, digitsToNat d2) := by
  have hu : isDigitChar '_' = false := by decide
  have hdot : isDigitChar '.' = false := by decide
  obtain ⟨ht1, hw1⟩ :=
    takeWhile_all_append isDigitChar d1 '_' (d2 ++ ['.', 'c', 's', 'v']) hd1 hu
  obtain ⟨ht2, hw2⟩ := takeWhile_all_append isDigitChar d2 '.' ['c', 's', 'v'] hd2 hdot
  have hr2t : (d2 ++ ['.', 'c', 's', 'v']).takeWhile isDigitChar = d2 := ht2
  have hr2d : (d2 ++ ['.', 'c', 's', 'v']).dropWhile isDigitChar = ['.', 'c', 's', 'v'] := hw2
  simp only [matchFilename, hs, hw1, ht1, hr2t, hr2d,
    isEmpty_false_of_ne_nil d1 h1, isEmpty_false_of_ne_nil d2 h2]
  simp

/-- Membership in the accepted-file list of find_csv_files. -/
theorem mem_find_csv_files (entries : List Entry) (g : AccFile) :
    g ∈ find_csv_files entries ↔
      g.1 ∈ entries ∧ g.1.isFile = true ∧ matchFilename g.1.name = some (g.2.1, g.2.2) := by
  simp only [find_csv_files, List.mem_filterMap]
  constructor
  · rintro ⟨e, he, hfe⟩
    by_cases hif : e.isFile = true
    · rw [if_pos hif] at hfe
      cases hm : matchFilename e.name with
      | none =>
        rw [hm] at hfe
        cases hfe
      | some p =>
        rw [hm] at hfe
        simp only [Option.some.injEq] at hfe
        subst hfe
        exact ⟨he, hif, hm⟩
    · rw [if_neg hif] at hfe
      cases hfe
  · rintro ⟨he, hif, hm⟩
    refine ⟨g.1, he, ?_⟩
    rw [if_pos hif, hm]

/-- Every skip note comes from a regular file with a non-matching name. -/
theorem mem_skip_events_elim (entries : List Entry) (ev : Event)
    (hev : ev ∈ skip_events entries) :
    ∃ e ∈ entries, ev = Event.skipName e.name ∧ e.isFile = true ∧
      matchFilename e.name = none := by
  simp only [skip_events, List.mem_filterMap] at hev
  obtain ⟨e, he, hfe⟩ := hev
  by_cases hcond : (e.isFile && (matchFilename e.name).isNone) = true
  · rw [if_pos hcond] at hfe
    injection hfe with h
    simp only [Bool.and_eq_true, Option.isNone_iff_eq_none] at hcond
    exact ⟨e, he, h.symm, hcond.1, hcond.2⟩
  · rw [if_neg hcond] at hfe
    cases hfe

/-- A regular file with a non-matching name gets its skip note printed. -/
theorem mem_skip_events_intro (entries : List Entry) (e : Entry) (he : e ∈ entries)
    (hif : e.isFile = true) (hm : matchFilename e.name = none) :
    Event.skipName e.name ∈ skip_events entries := by
  simp only [skip_events, List.mem_filterMap]
  exact ⟨e, he, by simp [hif, hm]⟩

/-- Name-level injectivity of a directory listing without duplicate names. -/
theorem entry_name_inj (entries : List Entry) (hN : (entries.map Entry.name).Nodup)
    (e1 : Entry) (h1 : e1 ∈ entries) (e2 : Entry) (h2 : e2 ∈ entries)
    (hname : e1.name = e2.name) : e1 = e2 :=
  List.inj_on_of_nodup_map hN h1 h2 hname

/-- A whole run only touches accepted files: new table rows and moved names
come from accepted files, names of non-accepted entries stay in the data
directory, and every printed event is a skip note, a file-less note, or
about an accepted file. -/
theorem process_files_frame (o : Oracle) (d : Bool) (db0 : List SalesRow)
    (entries : List Entry) :
    (∀ r ∈ (endState (process_files o d db0 entries)).db,
        r ∈ db0 ∨ ∃ g ∈ find_csv_files entries, r.file_name = g.1.name) ∧
    (∀ x ∈ (endState (process_files o d db0 entries)).processedDir,
        ∃ g ∈ find_csv_files entries, x = g.1.name) ∧
    (∀ x, x ∈ entries.map Entry.name → (∀ g ∈ find_csv_files entries, x ≠ g.1.name) →
        x ∈ (endState (process_files o d db0 entries)).inDataDir) ∧
    (∀ ev ∈ (endState (process_files o d db0 entries)).events,
        ev ∈ skip_events entries ∨ eventName ev = none ∨
          ∃ g ∈ find_csv_files entries, eventName ev = some g.1.name) := by
  by_cases hemp : (find_csv_files entries).isEmpty = true
  · simp only [process_files, hemp, if_true]
    refine ⟨fun r hr => Or.inl hr, fun x hx => absurd hx (List.not_mem_nil x),
            fun x hx _ => hx, fun ev hev => ?_⟩
    rcases List.mem_append.mp hev with h | h
    · exact Or.inl h
    · rw [List.mem_singleton.mp h]
      exact Or.inr (Or.inl rfl)
  · have hemp2 : (find_csv_files entries).isEmpty = false := by
      revert hemp
      cases (find_csv_files entries).isEmpty <;> simp
    simp only [process_files, hemp2, Bool.false_eq_true, if_false]
    obtain ⟨h1, h2, h3, h4⟩ := processList_frame o d (find_csv_files entries)
      { db := db0
        inDataDir := entries.map Entry.name
        processedDir := []
        events := skip_events entries ++
          [Event.foundCount (find_csv_files entries).length] }
    refine ⟨fun r hr => h1 r hr, fun x hx => ?_, fun x hx hne => h3 x hx hne,
            fun ev hev => ?_⟩
    · rcases h2 x hx with h | h
      · cases h
      · exact h
    · rcases h4 ev hev with h | h | h
      · rcases List.mem_append.mp h with h2' | h2'
        · exact Or.inl h2'
        · rw [List.mem_singleton.mp h2']
          exact Or.inr (Or.inl rfl)
      · exact Or.inr (Or.inl h)
      · exact Or.inr (Or.inr h)

/-- C4: a regular directory entry is accepted by find_csv_files exactly
when its name matches `^\d+_\d+\.csv$`, in which case the (shop_num,
cash_num) pair handed on is the one extracted from the name; a
non-matching file only gets an informational skip note, is not counted as
an accepted file, and over any whole run keeps its place in the data
directory, is never moved to processed/, and contributes no table row. -/
theorem naming_filter_correct (o : Oracle) (d : Bool) (db0 : List SalesRow)
    (entries : List Entry) (e : Entry)
    (he : e ∈ entries) (hif : e.isFile = true)
    (hN : (entries.map Entry.name).Nodup)
    (hdb0 : ∀ r ∈ db0, r.file_name ≠ e.name) :
    ((∃ s c, (e, s, c) ∈ find_csv_files entries) ↔ matchesPattern e.name) ∧
    (∀ s c, (e, s, c) ∈ find_csv_files entries → matchFilename e.name = some (s, c)) ∧
    (matchFilename e.name = none →
      Event.skipName e.name ∈ skip_events entries ∧
      (∀ g ∈ find_csv_files entries, g.1 ≠ e) ∧
      e.name ∈ (endState (process_files o d db0 entries)).inDataDir ∧
      e.name ∉ (endState (process_files o d db0 entries)).processedDir ∧
      (∀ r ∈ (endState (process_files o d db0 entries)).db, r.file_name ≠ e.name)) := by
  obtain ⟨f1, f2, f3, f4⟩ := process_files_frame o d db0 entries
  refine ⟨⟨?_, ?_⟩, ?_, ?_⟩
  · rintro ⟨s, c, hmem⟩
    have hm := ((mem_find_csv_files entries (e, s, c)).mp hmem).2.2
    obtain ⟨d1, d2, hn1, hn2, hd1, hd2, hdec, _, _⟩ := matchFilename_eq_some e.name s c hm
    exact ⟨d1, d2, hn1, hn2, hd1, hd2, hdec⟩
  · rintro ⟨d1, d2, hn1, hn2, hd1, hd2, hdec⟩
    have hm := matchFilename_of_decomp e.name d1 d2 hn1 hn2 hd1 hd2 hdec
    exact ⟨digitsToNat d1, digitsToNat d2,
      (mem_find_csv_files entries (e, digitsToNat d1, digitsToNat d2)).mpr ⟨he, hif, hm⟩⟩
  · intro s c hmem
    exact ((mem_find_csv_files entries (e, s, c)).mp hmem).2.2
  · intro hm
    have hnotacc : ∀ g ∈ find_csv_files entries, g.1 ≠ e := by
      intro g hg hcontr
      have := ((mem_find_csv_files entries g).mp hg).2.2
      rw [hcontr, hm] at this
      cases this
    have hname : ∀ g ∈ find_csv_files entries, e.name ≠ g.1.name := by
      intro g hg hcontr
      have hg1 := ((mem_find_csv_files entries g).mp hg).1
      exact hnotacc g hg (entry_name_inj entries hN g.1 hg1 e he hcontr.symm)
    refine ⟨mem_skip_events_intro entries e he hif hm, hnotacc,
      f3 e.name (List.mem_map.mpr ⟨e, he, rfl⟩) hname, ?_, ?_⟩
    · intro hcontr
      obtain ⟨g, hg, hn⟩ := f2 e.name hcontr
      exact hname g hg hn
    · intro r hr
      rcases f1 r hr with h | ⟨g, hg, hn⟩
      · exact hdb0 r h
      · rw [hn]
        exact fun hcontr => hname g hg hcontr.symm

/-- A file whose read returns a batch never aborts the loop step, whatever
the mode and the oracle. -/
theorem processOne_ok_of_read (o : Oracle) (d : Bool) (st : FState) (g : AccFile)
    (rows : List SalesRow)
    (hread : read_csv_file g.1.content g.1.name g.2.1 g.2.2 = .ok rows) :
    ∃ st2, processOne o d st g = .ok st2 := by
  cases d with
  | true => exact ⟨_, processOne_dry o st g rows hread⟩
  | false =>
    cases hfail : failsIn (o.failAt g.1.name) 0 rows.length with
    | true => exact ⟨_, processOne_loadfail o st g rows hread hfail⟩
    | false =>
      cases hmv : o.moveFail g.1.name with
      | true => exact ⟨_, processOne_movefail o st g rows hread hfail hmv⟩
      | false => exact ⟨_, processOne_success o st g rows hread hfail hmv⟩

/-- A prefix of files that all read successfully runs to completion, and
the loop on a longer list continues from the state it reaches. -/
theorem processList_ok_prefix (o : Oracle) (d : Bool) (pre : List AccFile) :
    ∀ st : FState,
    (∀ g ∈ pre, ∃ rows, read_csv_file g.1.content g.1.name g.2.1 g.2.2 = .ok rows) →
    ∃ st1, processList o d pre st = .ok st1 ∧
      ∀ rest, processList o d (pre ++ rest) st = processList o d rest st1 := by
  induction pre with
  | nil =>
    intro st _
    exact ⟨st, rfl, fun rest => rfl⟩
  | cons g gs ih =>
    intro st hpre
    obtain ⟨rows, hread⟩ := hpre g (List.mem_cons_self g gs)
    obtain ⟨st2, hstep⟩ := processOne_ok_of_read o d st g rows hread
    obtain ⟨st1, hok, hcont⟩ := ih st2 (fun x hx => hpre x (List.mem_cons_of_mem g hx))
    refine ⟨st1, ?_, fun rest => ?_⟩
    · rw [processList_cons_ok o d st st2 g gs hstep]
      exact hok
    · rw [List.cons_append, processList_cons_ok o d st st2 g (gs ++ rest) hstep]
      exact hcont rest

/-- C1: a parse failure of one accepted file is not caught by
process_files: the raise aborts the whole run at that file, and every
accepted file after it in the listing is left completely untouched — no
table row bears its name, it is neither moved nor removed from the data
directory, and not a single console event (not even the start-of-file
note) concerns it. -/
theorem parse_failure_aborts_run (o : Oracle) (d : Bool) (db0 : List SalesRow)
    (entries : List Entry) (pre post : List AccFile) (f : AccFile) (e : ParseError)
    (hN : (entries.map Entry.name).Nodup)
    (hsplit : find_csv_files entries = pre ++ f :: post)
    (hpre : ∀ g ∈ pre, ∃ rows, read_csv_file g.1.content g.1.name g.2.1 g.2.2 = .ok rows)
    (hfail : read_csv_file f.1.content f.1.name f.2.1 f.2.2 = .error e)
    (hdb0 : ∀ r ∈ db0, ∀ g ∈ post, r.file_name ≠ g.1.name) :
    ∃ stf : FState, process_files o d db0 entries = .error (e, stf) ∧
      ∀ g ∈ post,
        (∀ r ∈ stf.db, r.file_name ≠ g.1.name) ∧
        g.1.name ∉ stf.processedDir ∧
        g.1.name ∈ stf.inDataDir ∧
        (∀ ev ∈ stf.events, eventName ev ≠ some g.1.name) := by
  have hnd : ((find_csv_files entries).map (fun h => h.1.name)).Nodup :=
    hN.sublist (find_csv_files_sublist entries)
  rw [hsplit, List.map_append, List.map_cons] at hnd
  obtain ⟨hnd1, hnd2, hdisj⟩ := List.nodup_append.mp hnd
  have hfpost : f.1.name ∉ post.map (fun h => h.1.name) := (List.nodup_cons.mp hnd2).1
  have hgn_pre : ∀ g ∈ post, ∀ h ∈ pre, g.1.name ≠ h.1.name := by
    intro g hg h hh hcontr
    exact hdisj (a := h.1.name) (List.mem_map.mpr ⟨h, hh, rfl⟩)
      (List.mem_cons_of_mem _ (List.mem_map.mpr ⟨g, hg, hcontr⟩))
  have hgn_f : ∀ g ∈ post, g.1.name ≠ f.1.name := by
    intro g hg hcontr
    exact hfpost (hcontr ▸ List.mem_map.mpr ⟨g, hg, rfl⟩)
  have hne : (find_csv_files entries).isEmpty = false := by
    rw [hsplit]
    cases pre <;> rfl
  obtain ⟨st1, hok, hcont⟩ := processList_ok_prefix o d pre
    { db := db0
      inDataDir := entries.map Entry.name
      processedDir := []
      events := skip_events entries ++
        [Event.foundCount (pre ++ f :: post).length] } hpre
  have hframe := processList_frame o d pre
    { db := db0
      inDataDir := entries.map Entry.name
      processedDir := []
      events := skip_events entries ++
        [Event.foundCount (pre ++ f :: post).length] }
  rw [hok] at hframe
  obtain ⟨p1, p2, p3, p4⟩ := hframe
  have hrun : process_files o d db0 entries =
      .error (e, { st1 with
        events := st1.events ++ [Event.processing f.1.name f.2.1 f.2.2] }) := by
    simp only [process_files, hne, Bool.false_eq_true, if_false]
    rw [hsplit, hcont (f :: post),
      processList_cons_err o d st1 f post _ (processOne_readfail o d st1 f e hfail)]
  refine ⟨_, hrun, ?_⟩
  intro g hg
  have hgfs : g ∈ find_csv_files entries := by
    rw [hsplit]
    exact List.mem_append.mpr (Or.inr (List.mem_cons_of_mem f hg))
  have hgentry := (mem_find_csv_files entries g).mp hgfs
  refine ⟨?_, ?_, ?_, ?_⟩
  · intro r hr
    rcases p1 r hr with h | ⟨h2, hh2, hn⟩
    · exact hdb0 r h g hg
    · rw [hn]
      exact fun hcontr => hgn_pre g hg h2 hh2 hcontr.symm
  · intro hcontr
    rcases p2 g.1.name hcontr with h | ⟨h2, hh2, hn⟩
    · cases h
    · exact hgn_pre g hg h2 hh2 hn
  · refine p3 g.1.name (List.mem_map.mpr ⟨g.1, hgentry.1, rfl⟩) ?_
    exact fun h2 hh2 => hgn_pre g hg h2 hh2
  · intro ev hev hname
    rcases List.mem_append.mp hev with h | h
    · rcases p4 ev h with h2 | h2 | ⟨h3, hh3, hn⟩
      · rcases List.mem_append.mp h2 with h4 | h4
        · obtain ⟨e2, he2, hevn, hif2, hm2⟩ := mem_skip_events_elim entries ev h4
          rw [hevn] at hname
          simp only [eventName, Option.some.injEq] at hname
          have : e2 = g.1 := entry_name_inj entries hN e2 he2 g.1 hgentry.1 hname
          rw [this] at hm2
          rw [hgentry.2.2] at hm2
          cases hm2
        · rw [List.mem_singleton.mp h4] at hname
          cases hname
      · rw [h2] at hname
        cases hname
      · rw [hn] at hname
        injection hname with hname2
        exact hgn_pre g hg h3 hh3 hname2.symm
    · rw [List.mem_singleton.mp h] at hname
      simp only [eventName, Option.some.injEq] at hname
      exact hgn_f g hg hname.symm

/-- The dry-run loop never consults the database or move oracle, never
changes the table or either directory, only appends console events, and on
normal completion has reported a row count for every file handed to it. -/
theorem processList_dry (o o2 : Oracle) (fs : List AccFile) :
    ∀ st : FState,
    processList o true fs st = processList o2 true fs st ∧
    (endState (processList o true fs st)).db = st.db ∧
    (endState (processList o true fs st)).inDataDir = st.inDataDir ∧
    (endState (processList o true fs st)).processedDir = st.processedDir ∧
    (∀ ev ∈ st.events, ev ∈ (endState (processList o true fs st)).events) ∧
    (∀ stf, processList o true fs st = .ok stf →
      ∀ g ∈ fs, ∃ n, Event.rowCount g.1.name n ∈ stf.events) := by
  induction fs with
  | nil =>
    intro st
    exact ⟨rfl, rfl, rfl, rfl, fun ev hev => hev,
           fun stf h g hg => absurd hg (List.not_mem_nil g)⟩
  | cons g gs ih =>
    intro st
    cases hread : read_csv_file g.1.content g.1.name g.2.1 g.2.2 with
    | error e =>
      have h1 := processOne_readfail o true st g e hread
      have h2 := processOne_readfail o2 true st g e hread
      rw [processList_cons_err o true st g gs _ h1, processList_cons_err o2 true st g gs _ h2]
      refine ⟨rfl, rfl, rfl, rfl, fun ev hev => List.mem_append_left _ hev, fun stf h => ?_⟩
      cases h
    | ok rows =>
      have h1 := processOne_dry o st g rows hread
      have h2 := processOne_dry o2 st g rows hread
      rw [processList_cons_ok o true st _ g gs h1, processList_cons_ok o2 true st _ g gs h2]
      obtain ⟨i1, i2, i3, i4, i5, i6⟩ := ih
        { st with events := st.events ++ [Event.processing g.1.name g.2.1 g.2.2,
                                          Event.rowCount g.1.name rows.length,
                                          Event.dryRunNote] }
      refine ⟨i1, i2, i3, i4, fun ev hev => i5 ev (List.mem_append_left _ hev),
              fun stf h g2 hg2 => ?_⟩
      rcases List.mem_cons.mp hg2 with heq | hmem
      · subst heq
        refine ⟨rows.length, ?_⟩
        have hm := i5 (Event.rowCount g2.1.name rows.length)
          (List.mem_append_right _ (by simp))
        rw [h] at hm
        exact hm
      · exact i6 stf h g2 hmem

/-- C8: a dry run mutates nothing whatever the fault oracles could have
said: its whole result is oracle-independent, the final table equals the
initial one, every entry stays at its original path and nothing reaches
processed/, regardless of whether the run completed or aborted on a parse
failure; and when it completes, a row count has been reported for every
accepted file. -/
theorem dry_run_no_mutation (o o2 : Oracle) (db0 : List SalesRow) (entries : List Entry) :
    process_files o true db0 entries = process_files o2 true db0 entries ∧
    (endState (process_files o true db0 entries)).db = db0 ∧
    (endState (process_files o true db0 entries)).inDataDir = entries.map Entry.name ∧
    (endState (process_files o true db0 entries)).processedDir = [] ∧
    (∀ stf, process_files o true db0 entries = .ok stf →
      ∀ g ∈ find_csv_files entries, ∃ n, Event.rowCount g.1.name n ∈ stf.events) := by
  by_cases hemp : (find_csv_files entries).isEmpty = true
  · have hpe : process_files o true db0 entries = .ok
        { db := db0
          inDataDir := entries.map Entry.name
          processedDir := []
          events := skip_events entries ++ [Event.noFiles] } := by
      simp only [process_files, hemp, if_true]
    have hpe2 : process_files o2 true db0 entries = .ok
        { db := db0
          inDataDir := entries.map Entry.name
          processedDir := []
          events := skip_events entries ++ [Event.noFiles] } := by
      simp only [process_files, hemp, if_true]
    rw [hpe, hpe2]
    refine ⟨rfl, rfl, rfl, rfl, fun stf h g hg => ?_⟩
    cases hfind : find_csv_files entries with
    | nil =>
      rw [hfind] at hg
      cases hg
    | cons a as =>
      rw [hfind] at hemp
      cases hemp
  · have hemp2 : (find_csv_files entries).isEmpty = false := by
      revert hemp
      cases (find_csv_files entries).isEmpty <;> simp
    simp only [process_files, hemp2, Bool.false_eq_true, if_false]
    obtain ⟨i1, i2, i3, i4, i5, i6⟩ := processList_dry o o2 (find_csv_files entries)
      { db := db0
        inDataDir := entries.map Entry.name
        processedDir := []
        events := skip_events entries ++
          [Event.foundCount (find_csv_files entries).length] }
    exact ⟨i1, i2, i3, i4, i6⟩

/-! Concrete fixtures used to exercise the theorems. -/

instance {ε α : Type} [DecidableEq ε] [DecidableEq α] : DecidableEq (Except ε α) := fun a b =>
  match a, b with
  | .ok x, .ok y =>
    if h : x = y then .isTrue (congrArg Except.ok h)
    else .isFalse (fun hc => h (Except.ok.inj hc))
  | .error x, .error y =>
    if h : x = y then .isTrue (congrArg Except.error h)
    else .isFalse (fun hc => h (Except.error.inj hc))
  | .ok _, .error _ => .isFalse (fun hc => Except.noConfusion hc)
  | .error _, .ok _ => .isFalse (fun hc => Except.noConfusion hc)

/-- A well-formed one-row sales file, as in the spec's concrete scenario. -/
def okFile : CsvFile :=
  { header := REQUIRED_FIELDS
    dataRows := [[("D1"), ("Towel"), ("textile"), ("2"), ("199.99"), ("0.00")]] }

/-- The directory entry `3_2.csv` holding okFile. -/
def okEntry : Entry := { name := ("3_2.csv"), isFile := true, content := okFile }

/-- The record okFile parses to, stamped for shop 3, cash 2. -/
def okRow : SalesRow :=
  { doc_id := ("D1"), item := ("Towel"), category := ("textile"), amount := 2
    price := ⟨19999, 2⟩, discount := ⟨0, 2⟩, shop_num := 3, cash_num := 2
    file_name := ("3_2.csv") }

/-- The spec's `9_1.csv` scenario: the category column is missing. -/
def badEntry : Entry :=
  { name := ("9_1.csv"), isFile := true
    content := { header := [("doc_id"), ("item"), ("amount"), ("price"), ("discount")]
                 dataRows := [] } }

/-- A regular file whose name does not match the pattern. -/
def noteEntry : Entry :=
  { name := ("readme.txt"), isFile := true, content := { header := [], dataRows := [] } }

/-- A matching file with a valid header and no data rows. -/
def emptyEntry : Entry :=
  { name := ("1_1.csv"), isFile := true
    content := { header := REQUIRED_FIELDS, dataRows := [] } }

/-- Fault-free external world. -/
def cleanOracle : Oracle := { failAt := fun _ => none, moveFail := fun _ => false }

/-- A database that rejects the first insert of every file. -/
def failOracle : Oracle := { failAt := fun _ => some 0, moveFail := fun _ => false }

/-- A file system whose renames always raise. -/
def moveFailOracle : Oracle := { failAt := fun _ => none, moveFail := fun _ => true }

/-- Final state of the fault-free run over [okEntry]. -/
def c9FinalState : FState :=
  { db := [okRow]
    inDataDir := []
    processedDir := [("3_2.csv")]
    events := [Event.foundCount 1, Event.processing ("3_2.csv") 3 2,
               Event.rowCount ("3_2.csv") 1, Event.moved ("3_2.csv")] }

/-- Witness for C1 at the spec's 9_1.csv scenario: the schema error aborts
the run and the later file 3_2.csv is untouched. -/
theorem parse_failure_aborts_run_witness :
    ∃ stf : FState,
      process_files cleanOracle false [] [badEntry, okEntry] =
        .error (ParseError.schema ("9_1.csv"), stf) ∧
      ∀ g ∈ ([(okEntry, 3, 2)] : List AccFile),
        (∀ r ∈ stf.db, r.file_name ≠ g.1.name) ∧
        g.1.name ∉ stf.processedDir ∧
        g.1.name ∈ stf.inDataDir ∧
        (∀ ev ∈ stf.events, eventName ev ≠ some g.1.name) :=
  parse_failure_aborts_run cleanOracle false [] [badEntry, okEntry] [] [(okEntry, 3, 2)]
    (badEntry, 9, 1) (ParseError.schema ("9_1.csv")) (by decide) rfl
    (fun g hg => absurd hg (List.not_mem_nil g)) rfl
    (fun r hr => absurd hr (List.not_mem_nil r))

/-- Witness for C2: a rejected insert on 3_2.csv is caught and reported,
the table and directories are unchanged. -/
theorem load_failure_isolated_witness :
    processOne failOracle false ⟨[], [("3_2.csv")], [], []⟩ (okEntry, 3, 2) =
      .ok ⟨[], [("3_2.csv")], [],
           [Event.processing ("3_2.csv") 3 2, Event.rowCount ("3_2.csv") 1,
            Event.loadError ("3_2.csv") Cause.insertFailed]⟩ :=
  (load_failure_isolated failOracle ⟨[], [("3_2.csv")], [], []⟩ (okEntry, 3, 2)
    [okRow] rfl (by decide)).1

/-- Witness for C3 at a fault on the only (hence last) record: nothing is
persisted and no commit happens. -/
theorem load_transaction_all_or_nothing_witness :
    load_transactionP 999 (some 0) [] [okRow] = ([], false) ∧
    load_transactionP 0 none [] [okRow] = ([okRow], true) :=
  ⟨load_transaction_all_or_nothing 999 (some 0) [] [okRow],
   load_transaction_all_or_nothing 0 none [] [okRow]⟩

/-- Witness for C4: 3_2.csv matches the pattern; readme.txt is skipped with
a note. -/
theorem naming_filter_correct_witness :
    matchesPattern ("3_2.csv") ∧
    Event.skipName ("readme.txt") ∈ skip_events [noteEntry, okEntry] :=
  ⟨(naming_filter_correct cleanOracle false [] [noteEntry, okEntry] okEntry
      (by decide) rfl (by decide) (fun r hr => absurd hr (List.not_mem_nil r))).1.mp
      ⟨3, 2, by decide⟩,
   ((naming_filter_correct cleanOracle false [] [noteEntry, okEntry] noteEntry
      (by decide) rfl (by decide) (fun r hr => absurd hr (List.not_mem_nil r))).2.2
      rfl).1⟩

/-- Witness for C5 at 9_1.csv: the missing category column raises the
schema error naming the file. -/
theorem missing_column_fails_whole_file_witness :
    read_csv_file badEntry.content ("9_1.csv") 9 1 = .error (.schema ("9_1.csv")) :=
  (missing_column_fails_whole_file badEntry.content ("9_1.csv") 9 1 rfl).1

/-- Witness for C6 (amended): the bad first data row aborts the file with
line number 2 (its data-row index 1 plus one). -/
theorem row_failure_aborts_file_with_line_witness :
    read_csv_file c6File ("1_1.csv") 1 1 = .error (.row 2 ("1_1.csv")) :=
  (row_failure_aborts_file_with_line c6File ("1_1.csv") 1 1 []
    [("D1"), ("Towel"), ("textile"), ("x"), ("1.00"), ("0.00")] [] rfl rfl
    (fun r hr => absurd hr (List.not_mem_nil r)) rfl).1

/-- Witness for C7: after a committed load of 3_2.csv a failing move is
caught, the committed row stays, the file is not moved. -/
theorem archive_only_after_commit_witness :
    processOne moveFailOracle false ⟨[], [("3_2.csv")], [], []⟩ (okEntry, 3, 2) =
      .ok ⟨[okRow], [("3_2.csv")], [],
           [Event.processing ("3_2.csv") 3 2, Event.rowCount ("3_2.csv") 1,
            Event.loadError ("3_2.csv") Cause.moveFailed]⟩ :=
  (archive_only_after_commit moveFailOracle ⟨[], [("3_2.csv")], [], []⟩ (okEntry, 3, 2)
    [okRow] rfl).2.1 (by decide) rfl

/-- Witness for C8: a dry run over [okEntry] is oracle-independent and
leaves table and directories untouched. -/
theorem dry_run_no_mutation_witness :
    process_files cleanOracle true [] [okEntry] = process_files failOracle true [] [okEntry] ∧
    (endState (process_files cleanOracle true [] [okEntry])).db = [] ∧
    (endState (process_files cleanOracle true [] [okEntry])).processedDir = [] :=
  ⟨(dry_run_no_mutation cleanOracle failOracle [] [okEntry]).1,
   (dry_run_no_mutation cleanOracle failOracle [] [okEntry]).2.1,
   (dry_run_no_mutation cleanOracle failOracle [] [okEntry]).2.2.2.1⟩

/-- Witness for C9: after the clean run over [okEntry], the rows filed
under 3_2.csv are exactly the parsed batch, stamped 3 and 2. -/
theorem records_stamped_from_filename_witness :
    (∀ r ∈ [okRow], r.shop_num = 3 ∧ r.cash_num = 2 ∧ r.file_name = ("3_2.csv")) ∧
    c9FinalState.db.filter (fun r => r.file_name == ("3_2.csv")) = [okRow] :=
  records_stamped_from_filename cleanOracle [] [okEntry] c9FinalState (okEntry, 3, 2)
    [okRow] (by decide) (fun h hh => rfl) (by decide) (by decide)
    (fun r hr => absurd hr (List.not_mem_nil r)) rfl

/-- Witness for C10: the header-only file 1_1.csv commits vacuously and is
archived, even under a database that rejects every insert. -/
theorem empty_file_commits_and_archives_witness :
    read_csv_file emptyEntry.content ("1_1.csv") 1 1 = .ok [] ∧
    processOne failOracle false ⟨[], [("1_1.csv")], [], []⟩ (emptyEntry, 1, 1) =
      .ok ⟨[], [], [("1_1.csv")],
           [Event.processing ("1_1.csv") 1 1, Event.rowCount ("1_1.csv") 0,
            Event.moved ("1_1.csv")]⟩ :=
  empty_file_commits_and_archives failOracle ⟨[], [("1_1.csv")], [], []⟩
    (emptyEntry, 1, 1) rfl rfl rfl

end HomeRetail
